import Mathlib

set_option autoImplicit false

/-!
Verification of the per-feature processing context of tilemaker
(src/include/osm_object.h).  The `OSMObject` structure and the inline
member functions (`setNode`, `setWay`, `setRelation`, `reset`,
`setLocation`) are embedded directly from the header; operations whose
bodies live outside the given sources (osm_object.cpp) are modelled from
the specification and marked as such in their doc comments.

Machine integers are modelled as `Nat`/`Int`; the 64-bit unsigned way-id
counter only ever decrements from its maximum, so no wrap-around arises.
Pointers into externally owned protobuf arrays are modelled by the lists
they point at; the external node store is an association list.
-/

namespace Tilemaker

/-- A projected coordinate pair, as stored in the external node store. -/
structure LatpLon where
  lon : Int
  latp : Int
deriving DecidableEq, Repr

/-- Output objects are externally defined; the context only queues them,
so an abstract token suffices here. -/
abbrev OutputObject := Nat

/-- Layer definition, from `struct LayerDef` in osm_object.h.  The three
`double` simplification parameters are modelled as integers since no
claim interprets their values; `attributeMap` (a `std::map<string,uint>`)
is modelled as an association list with insert-or-overwrite update. -/
structure LayerDef where
  name : String
  minzoom : Nat
  maxzoom : Nat
  simplifyBelow : Nat
  simplifyLevel : Int
  simplifyLength : Int
  simplifyRat : Int
  attributeMap : List (String × Nat)
deriving DecidableEq, Repr

/-- The feature-processing context, from `class OSMObject` in
osm_object.h.  Pointer fields (`nodeVec`, `keysPtr`, `valsPtr`,
`densePtr`) are modelled by the lists they reference; the external
collaborators (`osmStore`, spatial indices) are passed as parameters to
the operations that read them. -/
structure OSMObject where
  osmID : Nat
  newWayID : Nat
  isWay : Bool
  isRelation : Bool
  lon1 : Int
  latp1 : Int
  lon2 : Int
  latp2 : Int
  nodeVec : List Nat
  outerWayVec : List Nat
  innerWayVec : List Nat
  linestringCache : List (Int × Int)
  linestringInited : Bool
  polygonCache : List (Int × Int)
  polygonInited : Bool
  multiPolygonCache : List (List (Int × Int)) × List (List (Int × Int))
  multiPolygonInited : Bool
  layers : List LayerDef
  layerMap : List (String × Nat)
  layerOrder : List (List Nat)
  outputs : List OutputObject
  stringTable : List String
  tagMap : List (String × Nat)
  denseStart : Nat
  denseEnd : Nat
  denseKV : List Nat
  keys : List Nat
  vals : List Nat
  tagLength : Nat
deriving DecidableEq, Repr

/-- Association-list lookup, used for the node store, the string-table
reverse map (`tagMap`) and the layer name map. -/
def lookupKey {α β : Type} [DecidableEq α] : List (α × β) → α → Option β
  | [], _ => none
  | (k, v) :: rest, a => if k = a then some v else lookupKey rest a

/-- The external coordinate store (`osmStore->nodes`): node id to
projected coordinates. -/
abbrev NodeStore := List (Nat × LatpLon)

/-- Shorthand for the store lookup `osmStore->nodes.at(id)` returning
`none` where the C++ `at` would throw `std::out_of_range`. -/
def lookupNode (store : NodeStore) (id : Nat) : Option LatpLon :=
  lookupKey store id

/-- `OSMObject::reset` (osm_object.h lines 163-168): clear the queued
output objects and the three geometry-cache validity flags. -/
def reset (o : OSMObject) : OSMObject :=
  { o with outputs := [], linestringInited := false,
           polygonInited := false, multiPolygonInited := false }

/-- `OSMObject::setLocation` (osm_object.h lines 171-173). -/
def setLocation (a b c d : Int) (o : OSMObject) : OSMObject :=
  { o with lon1 := a, latp1 := b, lon2 := c, latp2 := d }

/-- `OSMObject::setNode` (osm_object.h lines 106-117). -/
def setNode (id : Nat) (dkv : List Nat) (kvStart kvEnd : Nat) (node : LatpLon)
    (o : OSMObject) : OSMObject :=
  let o1 := reset o
  let o2 := { o1 with osmID := id, isWay := false, isRelation := false }
  let o3 := setLocation node.lon node.latp node.lon node.latp o2
  { o3 with denseStart := kvStart, denseEnd := kvEnd, denseKV := dkv }

/-- `OSMObject::setWay` (osm_object.h lines 120-142): reset, install the
way id and node list, then look the first and last referenced nodes up in
the store to seed the endpoints; a failed lookup raises
`std::out_of_range("Way <id> is missing a node")`, modelled as
`Except.error`.  The C++ `front()`/`back()` on an empty vector is
undefined behaviour; here an empty list degrades to looking up id 0. -/
def setWay (store : NodeStore) (wayId : Nat) (wayKeys wayVals : List Nat)
    (nodeVecPtr : List Nat) (o : OSMObject) : Except String OSMObject :=
  let o1 := reset o
  let o2 := { o1 with osmID := wayId, isWay := true, isRelation := false,
                      nodeVec := nodeVecPtr }
  match lookupNode store (nodeVecPtr.headD 0),
        lookupNode store (nodeVecPtr.getLastD 0) with
  | some f, some b =>
      let o3 := setLocation f.lon f.latp b.lon b.latp o2
      Except.ok { o3 with keys := wayKeys, vals := wayVals,
                          tagLength := wayKeys.length }
  | _, _ => Except.error ("Way " ++ toString wayId ++ " is missing a node")

/-- `OSMObject::setRelation` (osm_object.h lines 147-160): reset, assign
`osmID = --newWayID` (pre-decrement), flag the object as way+relation and
install the outer/inner way lists and tag arrays.  No endpoint
computation is performed (the `setLocation` call is commented out as
TODO in the source). -/
def setRelation (relKeys relVals : List Nat) (outerWayVecPtr innerWayVecPtr : List Nat)
    (o : OSMObject) : OSMObject :=
  let o1 := reset o
  let newID := o1.newWayID - 1
  { o1 with newWayID := newID, osmID := newID, isWay := true, isRelation := true,
            outerWayVec := outerWayVecPtr, innerWayVec := innerWayVecPtr,
            keys := relKeys, vals := relVals, tagLength := relKeys.length }

/-- Modelled from the spec: `MAX_WAY_ID` is defined in osm_store.h, which
is not among the given sources.  The spec says the relation-id counter is
"seeded at the maximum possible way id"; `WayID` is a 64-bit unsigned
integer type, so its maximum is 2^64 - 1. -/
def MAX_WAY_ID : Nat := 18446744073709551615

/-- Modelled from the spec: the `OSMObject` constructor body lives in
osm_object.cpp, which is not among the given sources.  A freshly
constructed context has no layers, no queued outputs and cleared caches;
the header itself (line 50) supplies the default `newWayID = MAX_WAY_ID`. -/
def initOSM : OSMObject :=
  { osmID := 0, newWayID := MAX_WAY_ID, isWay := false, isRelation := false,
    lon1 := 0, latp1 := 0, lon2 := 0, latp2 := 0,
    nodeVec := [], outerWayVec := [], innerWayVec := [],
    linestringCache := [], linestringInited := false,
    polygonCache := [], polygonInited := false,
    multiPolygonCache := ([], []), multiPolygonInited := false,
    layers := [], layerMap := [], layerOrder := [], outputs := [],
    stringTable := [], tagMap := [],
    denseStart := 0, denseEnd := 0, denseKV := [],
    keys := [], vals := [], tagLength := 0 }

/-- The post-state every `begin*` operation guarantees: no queued output
features and all three geometry-cache validity flags cleared. -/
def cleared (o : OSMObject) : Prop :=
  o.outputs = [] ∧ o.linestringInited = false ∧ o.polygonInited = false ∧
    o.multiPolygonInited = false

instance (o : OSMObject) : Decidable (cleared o) := by
  unfold cleared; infer_instance

/-- C8: `reset` is idempotent — applying it twice leaves the context in
the same state as applying it once — and it is safe on a freshly
constructed context, which it maps to itself. -/
theorem reset_idempotent_and_safe :
    (∀ o : OSMObject, reset (reset o) = reset o) ∧ reset initOSM = initOSM :=
  ⟨fun _ => rfl, rfl⟩

/-- C9: `setRelation` performs no endpoint computation (the source's
`setLocation` call is commented out), so the four endpoint fields keep
whatever values the previous primitive left in them. -/
theorem setRelation_preserves_endpoints (relKeys relVals ow iw : List Nat)
    (o : OSMObject) :
    (setRelation relKeys relVals ow iw o).lon1 = o.lon1 ∧
    (setRelation relKeys relVals ow iw o).latp1 = o.latp1 ∧
    (setRelation relKeys relVals ow iw o).lon2 = o.lon2 ∧
    (setRelation relKeys relVals ow iw o).latp2 = o.latp2 :=
  ⟨rfl, rfl, rfl, rfl⟩

/-- C10: `reset` touches only the output queue and the three geometry
validity flags; the layer registry, the string table and its reverse map,
the tag-resolution state, the identity fields, the endpoint fields and
the synthetic-id counter are all left unchanged. -/
theorem reset_frame (o : OSMObject) :
    ((reset o).outputs = [] ∧ (reset o).linestringInited = false ∧
      (reset o).polygonInited = false ∧ (reset o).multiPolygonInited = false) ∧
    (reset o).layers = o.layers ∧ (reset o).layerMap = o.layerMap ∧
    (reset o).layerOrder = o.layerOrder ∧
    (reset o).stringTable = o.stringTable ∧ (reset o).tagMap = o.tagMap ∧
    (reset o).denseStart = o.denseStart ∧ (reset o).denseEnd = o.denseEnd ∧
    (reset o).denseKV = o.denseKV ∧ (reset o).keys = o.keys ∧
    (reset o).vals = o.vals ∧ (reset o).tagLength = o.tagLength ∧
    (reset o).osmID = o.osmID ∧ (reset o).isWay = o.isWay ∧
    (reset o).isRelation = o.isRelation ∧ (reset o).newWayID = o.newWayID ∧
    (reset o).lon1 = o.lon1 ∧ (reset o).latp1 = o.latp1 ∧
    (reset o).lon2 = o.lon2 ∧ (reset o).latp2 = o.latp2 ∧
    (reset o).nodeVec = o.nodeVec ∧ (reset o).outerWayVec = o.outerWayVec ∧
    (reset o).innerWayVec = o.innerWayVec ∧
    (reset o).linestringCache = o.linestringCache ∧
    (reset o).polygonCache = o.polygonCache ∧
    (reset o).multiPolygonCache = o.multiPolygonCache := by
  refine ⟨⟨rfl, rfl, rfl, rfl⟩, ?_⟩
  repeat' constructor

/-- C6: every begin operation first performs `reset`, and nothing it
installs afterwards touches the output queue or the cache flags, so after
`setNode`, `setRelation`, or a successful `setWay` the queued output list
is empty and all three geometry-cache validity flags are cleared. -/
theorem begin_clears (store : NodeStore) (id wayId : Nat)
    (dkv wayKeys wayVals nv relKeys relVals ow iw : List Nat)
    (kvStart kvEnd : Nat) (node : LatpLon) (o : OSMObject) :
    cleared (setNode id dkv kvStart kvEnd node o) ∧
    cleared (setRelation relKeys relVals ow iw o) ∧
    (∀ o', setWay store wayId wayKeys wayVals nv o = Except.ok o' → cleared o') := by
  refine ⟨⟨rfl, rfl, rfl, rfl⟩, ⟨rfl, rfl, rfl, rfl⟩, ?_⟩
  intro o' h
  unfold setWay at h
  split at h
  · cases h
    exact ⟨rfl, rfl, rfl, rfl⟩
  · cases h

/-- Witness for C6: concrete begin calls, including a `setWay` whose
first and last node are present in the store. -/
theorem begin_clears_witness :
    cleared (setNode 1 [] 0 0 ⟨0, 0⟩ initOSM) ∧
    cleared (setRelation [] [] [] [] initOSM) ∧
    cleared ((setWay [(5, ⟨1, 2⟩)] 9 [] [] [5] initOSM).toOption.getD initOSM) := by
  have h := begin_clears [(5, ⟨1, 2⟩)] 1 9 [] [] [] [5] [] [] [] [] 0 0 ⟨0, 0⟩ initOSM
  exact ⟨h.1, h.2.1, h.2.2 _ rfl⟩

/-- C1 counterexample: way 7 references nodes 1, 2, 3; node 2 is absent
from the store, yet `setWay` succeeds, because only the first and last
referenced nodes are looked up at way-begin time. -/
theorem setWay_middle_node_missing_ok :
    lookupNode [(1, ⟨10, 11⟩), (3, ⟨30, 31⟩)] 2 = none ∧
    2 ∈ [1, 2, 3] ∧
    (setWay [(1, ⟨10, 11⟩), (3, ⟨30, 31⟩)] 7 [] [] [1, 2, 3] initOSM).isOk = true := by
  decide

/-- C1 (amended): if the first or last referenced node id is absent from
the coordinate store, `setWay` fails with the missing-node error carrying
the originating way id; when both endpoint lookups succeed, the endpoints
are taken verbatim from the store (never substituted with defaults). -/
theorem setWay_missing_node_error (store : NodeStore) (wayId : Nat)
    (wayKeys wayVals nv : List Nat) (o : OSMObject) :
    (lookupNode store (nv.headD 0) = none ∨ lookupNode store (nv.getLastD 0) = none →
      setWay store wayId wayKeys wayVals nv o =
        Except.error ("Way " ++ toString wayId ++ " is missing a node")) ∧
    (∀ f b o', lookupNode store (nv.headD 0) = some f →
      lookupNode store (nv.getLastD 0) = some b →
      setWay store wayId wayKeys wayVals nv o = Except.ok o' →
      o'.lon1 = f.lon ∧ o'.latp1 = f.latp ∧ o'.lon2 = b.lon ∧ o'.latp2 = b.latp) := by
  constructor
  · intro h
    simp only [setWay]
    rcases h with h | h
    · rw [h]
    · rw [h]
      cases lookupNode store (nv.headD 0) <;> rfl
  · intro f b o' hf hb h
    simp only [setWay, hf, hb] at h
    injection h with h
    subst h
    exact ⟨rfl, rfl, rfl, rfl⟩

/-- Witness for C1 (amended): a way whose only node is absent fails with
the error naming way 7; a way with both endpoints present copies the
stored longitude into `lon1`. -/
theorem setWay_missing_node_error_witness :
    setWay [] 7 [] [] [1] initOSM =
      Except.error ("Way " ++ toString 7 ++ " is missing a node") ∧
    ((setWay [(5, ⟨1, 2⟩)] 9 [] [] [5] initOSM).toOption.getD initOSM).lon1 = 1 := by
  have h1 := setWay_missing_node_error [] 7 [] [] [1] initOSM
  have h2 := setWay_missing_node_error [(5, ⟨1, 2⟩)] 9 [] [] [5] initOSM
  exact ⟨h1.1 (Or.inl rfl), (h2.2 ⟨1, 2⟩ ⟨1, 2⟩ _ rfl rfl rfl).1⟩

/-- Repeated relation processing: apply `setRelation` `n` times (the tag
and member arguments do not influence id assignment) and record the
synthetic id assigned at each step. -/
def syntheticIDs : Nat → OSMObject → List Nat
  | 0, _ => []
  | n + 1, o =>
      let o' := setRelation [] [] [] [] o
      o'.osmID :: syntheticIDs n o'

theorem syntheticIDs_closed_form (n : Nat) (o : OSMObject) :
    syntheticIDs n o = (List.range n).map (fun i => o.newWayID - 1 - i) := by
  induction n generalizing o with
  | zero => rfl
  | succ n ih =>
      rw [syntheticIDs, ih, List.range_succ_eq_map]
      simp only [List.map_cons, List.map_map]
      have harg : (setRelation [] [] [] [] o).newWayID = o.newWayID - 1 := rfl
      have hid : (setRelation [] [] [] [] o).osmID = o.newWayID - 1 := rfl
      rw [harg, hid]
      have hfun : (fun i => o.newWayID - 1 - 1 - i) =
          ((fun i => o.newWayID - 1 - i) ∘ Nat.succ) := by
        funext i
        show o.newWayID - 1 - 1 - i = o.newWayID - 1 - (i + 1)
        omega
      rw [hfun, Nat.sub_zero]

/-- C2: the synthetic ids assigned by a sequence of `setRelation` calls,
starting from the seed `MAX_WAY_ID`, are strictly decreasing; none of
them collides with any genuine way id of the run (way ids fit in a signed
64-bit protobuf field, so they are below 2^63, while fewer than 2^62
relations keep every synthetic id above 2^63); and `setWay` never touches
the synthetic-id counter. -/
theorem setRelation_synthetic_ids (o : OSMObject) (n : Nat) (wayIds : List Nat)
    (hinit : o.newWayID = MAX_WAY_ID) (hn : n ≤ 4611686018427387904)
    (hB : ∀ w ∈ wayIds, w < 9223372036854775808) :
    List.Pairwise (fun a b => b < a) (syntheticIDs n o) ∧
    (∀ s ∈ syntheticIDs n o, ∀ w ∈ wayIds, s ≠ w) ∧
    (∀ store wid wk wv nvp o', setWay store wid wk wv nvp o = Except.ok o' →
        o'.newWayID = o.newWayID) := by
  have hclosed := syntheticIDs_closed_form n o
  have hmem : ∀ s ∈ syntheticIDs n o, ∃ i, i < n ∧ s = o.newWayID - 1 - i := by
    intro s hs
    rw [hclosed] at hs
    obtain ⟨i, hi, hsi⟩ := List.mem_map.mp hs
    exact ⟨i, List.mem_range.mp hi, hsi.symm⟩
  refine ⟨?_, ?_, ?_⟩
  · rw [hclosed, List.pairwise_iff_getElem]
    intro i j hi hj hij
    simp only [List.getElem_map, List.getElem_range] at *
    simp only [List.length_map, List.length_range] at hi hj
    have : o.newWayID = 18446744073709551615 := hinit
    omega
  · intro s hs w hw
    obtain ⟨i, hi, rfl⟩ := hmem s hs
    have hwB := hB w hw
    have : o.newWayID = 18446744073709551615 := hinit
    omega
  · intro store wid wk wv nvp o' h
    unfold setWay at h
    split at h
    · cases h; rfl
    · cases h

/-- Witness for C2: three relations in sequence from a fresh context get
three strictly decreasing synthetic ids, distinct from way ids 100, 200. -/
theorem setRelation_synthetic_ids_witness :
    List.Pairwise (fun a b => b < a) (syntheticIDs 3 initOSM) ∧
    (∀ s ∈ syntheticIDs 3 initOSM, ∀ w ∈ [100, 200], s ≠ w) := by
  have h := setRelation_synthetic_ids initOSM 3 [100, 200] rfl (by decide) (by decide)
  exact ⟨h.1, h.2.1⟩

/-- Modelled from the spec: `OSMObject::findStringPosition` is declared
in the header but implemented in osm_object.cpp, which is not among the
given sources.  Per the spec it is `stringTablePosition(str) -> optional
index`, a reverse lookup through the block-scoped string table's
string-to-position map. -/
def findStringPosition (o : OSMObject) (str : String) : Option Nat :=
  lookupKey o.tagMap str

/-- Scan of the parallel key/value id arrays of a way or relation: the
value id paired with the first key id equal to `p` is resolved through
the string table, and the empty string is returned when no key matches. -/
def tagScan (st : List String) (p : Nat) : List Nat → List Nat → String
  | k :: ks, v :: vs => if k = p then st.getD v "" else tagScan st p ks vs
  | _, _ => ""

/-- Scan of a dense-node key/value sub-range: repeated (key id, value id)
pairs, terminated early by a key id of zero. -/
def densePairScan (st : List String) (p : Nat) : List Nat → String
  | k :: v :: rest =>
      if k = 0 then "" else if k = p then st.getD v "" else densePairScan st p rest
  | _ => ""

/-- Modelled from the spec: `OSMObject::Find` (getTag) is implemented in
osm_object.cpp, which is not among the given sources.  Per the spec: the
key string is first converted to a string-table position (a lookup miss
short-circuits to the empty string); for way/relation identity the
parallel key/value id arrays (of length `tagLength`) are scanned for the
first matching key id; for node identity the dense sub-range is scanned
pairwise up to the zero terminator.  Absent tags yield an empty string. -/
def Find (o : OSMObject) (key : String) : String :=
  match findStringPosition o key with
  | none => ""
  | some p =>
      if o.isWay then
        tagScan o.stringTable p (o.keys.take o.tagLength) (o.vals.take o.tagLength)
      else
        densePairScan o.stringTable p
          ((o.denseKV.drop o.denseStart).take (o.denseEnd - o.denseStart))

/-- Boolean presence scan over way/relation key ids. -/
def tagHasKey (p : Nat) : List Nat → Bool
  | [] => false
  | k :: ks => if k = p then true else tagHasKey p ks

/-- Boolean presence scan over a dense key/value sub-range. -/
def denseHasKey (p : Nat) : List Nat → Bool
  | k :: _ :: rest => if k = 0 then false else if k = p then true else denseHasKey p rest
  | _ => false

/-- Modelled from the spec: `OSMObject::Holds` (hasTag) is implemented in
osm_object.cpp, which is not among the given sources; same dispatch as
`Find`, but only key presence is reported. -/
def Holds (o : OSMObject) (key : String) : Bool :=
  match findStringPosition o key with
  | none => false
  | some p =>
      if o.isWay then tagHasKey p (o.keys.take o.tagLength)
      else denseHasKey p ((o.denseKV.drop o.denseStart).take (o.denseEnd - o.denseStart))

theorem tagScan_first_match (st : List String) (p : Nat) :
    ∀ (ks vs : List Nat) (i : Nat), i < ks.length → i < vs.length →
      (∀ j, j < i → ks.getD j (p + 1) ≠ p) → ks.getD i (p + 1) = p →
      tagScan st p ks vs = st.getD (vs.getD i 0) "" := by
  intro ks
  induction ks with
  | nil =>
      intro vs i hik
      simp at hik
  | cons k ks ih =>
      intro vs i hik hiv hfirst hki
      cases vs with
      | nil => simp at hiv
      | cons v vs =>
          cases i with
          | zero =>
              have hk : k = p := hki
              simp [tagScan, hk]
          | succ i =>
              have hk : k ≠ p := by
                have := hfirst 0 (Nat.succ_pos i)
                simpa using this
              have hrec := ih vs i (by simpa using hik) (by simpa using hiv)
                (fun j hj => by
                  have := hfirst (j + 1) (by omega)
                  simpa using this)
                (by simpa using hki)
              simp [tagScan, hk, hrec]

theorem tagScan_no_match (st : List String) (p : Nat) :
    ∀ (ks vs : List Nat), (∀ k ∈ ks, k ≠ p) → tagScan st p ks vs = "" := by
  intro ks
  induction ks with
  | nil => intro vs _; cases vs <;> rfl
  | cons k ks ih =>
      intro vs h
      cases vs with
      | nil => rfl
      | cons v vs =>
          have hk : k ≠ p := h k (List.mem_cons_self k ks)
          have hrec := ih vs (fun x hx => h x (List.mem_cons_of_mem k hx))
          simp [tagScan, hk, hrec]

/-- C5: for a way or relation with parallel key/value id arrays, `Find`
returns the string-table entry at the value id paired with the first key
id equal to the key's string-table position, and the empty string when no
key id matches or the key string is absent from the string table. -/
theorem Find_first_match (o : OSMObject) (key : String) (p : Nat)
    (hw : o.isWay = true) (hlen : o.tagLength = o.keys.length)
    (hvlen : o.vals.length = o.keys.length) :
    (findStringPosition o key = none → Find o key = "") ∧
    (findStringPosition o key = some p →
      (∀ i, i < o.keys.length → (∀ j, j < i → o.keys.getD j (p + 1) ≠ p) →
          o.keys.getD i (p + 1) = p →
          Find o key = o.stringTable.getD (o.vals.getD i 0) "") ∧
      ((∀ k ∈ o.keys, k ≠ p) → Find o key = "")) := by
  have htake : o.keys.take o.tagLength = o.keys := by
    rw [hlen]
    exact List.take_length o.keys
  have hvtake : o.vals.take o.tagLength = o.vals := by
    rw [hlen, ← hvlen]
    exact List.take_length o.vals
  constructor
  · intro h
    unfold Find
    rw [h]
  · intro h
    constructor
    · intro i hi hfirst hki
      unfold Find
      rw [h]
      simp only [hw, if_true]
      rw [htake, hvtake]
      exact tagScan_first_match o.stringTable p o.keys o.vals i hi
        (by omega) hfirst hki
    · intro hnone
      unfold Find
      rw [h]
      simp only [hw, if_true]
      rw [htake, hvtake]
      exact tagScan_no_match o.stringTable p o.keys o.vals hnone

/-- A concrete way-tagged context used to witness the tag-decoder claim:
string table positions 0-3 are highway, primary, name, Main; the way
carries keys [name, highway] with values [Main, primary]. -/
def tagObject : OSMObject :=
  { initOSM with
    isWay := true
    stringTable := ["highway", "primary", "name", "Main"]
    tagMap := [("highway", 0), ("primary", 1), ("name", 2), ("Main", 3)]
    keys := [2, 0]
    vals := [3, 1]
    tagLength := 2 }

/-- Witness for C5: on `tagObject`, the highway tag resolves to
"primary" (first matching key id at position 1), and a key that is absent
from the string table resolves to the empty string. -/
theorem Find_first_match_witness :
    Find tagObject ("highway") = "primary" ∧ Find tagObject ("fence") = "" := by
  have h1 := Find_first_match tagObject ("highway") 0 rfl rfl rfl
  have h2 := Find_first_match tagObject ("fence") 0 rfl rfl rfl
  constructor
  · have := (h1.2 rfl).1 1 (by decide)
      (fun j hj => by
        have hj0 : j = 0 := by omega
        subst hj0
        decide) rfl
    simpa using this
  · exact h2.1 rfl

/-- The external way store used by relation geometry: way id to node
reference list. -/
abbrev WayStore := List (Nat × List Nat)

/-- Modelled from the spec: line geometry is built by resolving every
referenced node id through the coordinate store, in reference order, into
a connected point sequence; a missing node is a failure condition
identical to the way-begin lookup (osm_store's nodeListLinestring is not
among the given sources). -/
def buildLinestring (store : NodeStore) : List Nat → Except String (List (Int × Int))
  | [] => Except.ok []
  | n :: rest =>
      match lookupNode store n with
      | none => Except.error ("missing node " ++ toString n)
      | some ll => (buildLinestring store rest).map (fun ps => (ll.lon, ll.latp) :: ps)

/-- Modelled from the spec: polygon geometry is built from the same node
sequence treated as a closed ring. -/
def buildPolygon (store : NodeStore) (nv : List Nat) : Except String (List (Int × Int)) :=
  buildLinestring store nv

/-- Modelled from the spec: each member way of a relation is resolved to
a ring via the line path. -/
def buildRings (store : NodeStore) (ways : WayStore) :
    List Nat → Except String (List (List (Int × Int)))
  | [] => Except.ok []
  | w :: rest =>
      match lookupKey ways w with
      | none => Except.error ("missing way " ++ toString w)
      | some nv =>
          match buildLinestring store nv with
          | Except.error e => Except.error e
          | Except.ok ring =>
              (buildRings store ways rest).map (fun rs => ring :: rs)

/-- Modelled from the spec: multi-polygon geometry is assembled from the
outer and inner way-reference collections, using the stored outer/inner
classification verbatim. -/
def buildMultiPolygon (store : NodeStore) (ways : WayStore) (outer inner : List Nat) :
    Except String (List (List (Int × Int)) × List (List (Int × Int))) :=
  match buildRings store ways outer, buildRings store ways inner with
  | Except.ok os, Except.ok hs => Except.ok (os, hs)
  | Except.error e, _ => Except.error e
  | _, Except.error e => Except.error e

/-- Modelled from the spec: `OSMObject::linestring` is implemented in
osm_object.cpp, which is not among the given sources.  Per the spec it
lazily builds and memoizes line geometry guarded by `linestringInited`:
if the flag is set the cache is returned, otherwise the geometry is built
from the current node references, cached, and the flag set. -/
def linestring (store : NodeStore) (o : OSMObject) :
    Except String (OSMObject × List (Int × Int)) :=
  if o.linestringInited then Except.ok (o, o.linestringCache)
  else (buildLinestring store o.nodeVec).map
    (fun ls => ({ o with linestringInited := true, linestringCache := ls }, ls))

/-- Modelled from the spec: `OSMObject::polygon`, the lazily memoized
polygon accessor, guarded by `polygonInited`. -/
def polygon (store : NodeStore) (o : OSMObject) :
    Except String (OSMObject × List (Int × Int)) :=
  if o.polygonInited then Except.ok (o, o.polygonCache)
  else (buildPolygon store o.nodeVec).map
    (fun ps => ({ o with polygonInited := true, polygonCache := ps }, ps))

/-- Modelled from the spec: `OSMObject::multiPolygon`, the lazily
memoized multi-polygon accessor, guarded by `multiPolygonInited`. -/
def multiPolygon (store : NodeStore) (ways : WayStore) (o : OSMObject) :
    Except String (OSMObject × (List (List (Int × Int)) × List (List (Int × Int)))) :=
  if o.multiPolygonInited then Except.ok (o, o.multiPolygonCache)
  else (buildMultiPolygon store ways o.outerWayVec o.innerWayVec).map
    (fun mp => ({ o with multiPolygonInited := true, multiPolygonCache := mp }, mp))

/-- C3: after `reset`, every geometry accessor rebuilds from the current
feature's references — the returned geometry equals a fresh build from
`nodeVec` (resp. the outer/inner way lists), whatever geometry any
previous feature left in the caches. -/
theorem geometry_rebuilt_after_reset (store : NodeStore) (ways : WayStore)
    (o : OSMObject) :
    (linestring store (reset o)).map (fun r => r.2) = buildLinestring store o.nodeVec ∧
    (polygon store (reset o)).map (fun r => r.2) = buildPolygon store o.nodeVec ∧
    (multiPolygon store ways (reset o)).map (fun r => r.2) =
      buildMultiPolygon store ways o.outerWayVec o.innerWayVec := by
  refine ⟨?_, ?_, ?_⟩
  · unfold linestring
    cases h : buildLinestring store o.nodeVec <;> simp [reset, h, Except.map]
  · unfold polygon
    cases h : buildPolygon store o.nodeVec <;> simp [reset, h, Except.map]
  · unfold multiPolygon
    cases h : buildMultiPolygon store ways o.outerWayVec o.innerWayVec <;>
      simp [reset, h, Except.map]

/-- The spatial index registry seen by the context: candidate ids for a
bounding box, a name per candidate, and the verdict of the exact
geometric verification pass per candidate.  The exact test itself is
performed on externally stored geometries, so it enters the model as an
oracle. -/
structure SpatialIndex where
  query : Int × Int → Int × Int → List Nat
  names : Nat → String
  verify : Nat → Bool

/-- Modelled from the spec: `OSMObject::findIntersectingGeometries` is
implemented in osm_object.cpp, which is not among the given sources.  The
header comment records the preserved limitation: "multipolygon relations
not supported, will always return false"; ids returned for other subjects
are the box candidates that survive exact verification. -/
def findIntersectingGeometries (idx : SpatialIndex) (o : OSMObject) : List Nat :=
  if o.isRelation then []
  else (idx.query (o.lon1, o.latp1) (o.lon2, o.latp2)).filter (fun i => idx.verify i)

/-- Modelled from the spec: `OSMObject::FindIntersecting` resolves the
verified candidate ids to their stored names. -/
def FindIntersecting (idx : SpatialIndex) (o : OSMObject) : List String :=
  (findIntersectingGeometries idx o).map idx.names

/-- Modelled from the spec: `OSMObject::Intersects` reports whether any
candidate survives verification. -/
def Intersects (idx : SpatialIndex) (o : OSMObject) : Bool :=
  !(findIntersectingGeometries idx o).isEmpty

/-- C4: when the current feature is a multi-polygon relation, both
spatial intersection queries deterministically report no match, whatever
the index contains. -/
theorem relation_spatial_query_no_match (idx : SpatialIndex) (o : OSMObject)
    (h : o.isRelation = true) :
    FindIntersecting idx o = [] ∧ Intersects idx o = false := by
  constructor <;>
    simp [FindIntersecting, Intersects, findIntersectingGeometries, h]

/-- A sample index whose box query reports three candidates, all passing
verification. -/
def sampleIndex : SpatialIndex :=
  { query := fun _ _ => [1, 2, 3]
    names := fun n => toString n
    verify := fun _ => true }

/-- Witness for C4: a relation subject gets no match from `sampleIndex`
even though the index would offer three verified candidates. -/
theorem relation_spatial_query_no_match_witness :
    FindIntersecting sampleIndex (setRelation [] [] [] [] initOSM) = [] ∧
    Intersects sampleIndex (setRelation [] [] [] [] initOSM) = false :=
  relation_spatial_query_no_match sampleIndex (setRelation [] [] [] [] initOSM) rfl

/-- Insert-or-overwrite on an association list, the update discipline of
the C++ `std::map` behind `LayerDef::attributeMap`: an existing binding
for the key is replaced in place, otherwise the binding is appended. -/
def mapInsert : List (String × Nat) → String → Nat → List (String × Nat)
  | [], k, v => [(k, v)]
  | (k0, v0) :: rest, k, v =>
      if k0 = k then (k0, v) :: rest else (k0, v0) :: mapInsert rest k v

/-- Apply `f` to the element at position `i`, leaving the list unchanged
when `i` is out of range. -/
def modifyAt {α : Type} (f : α → α) : Nat → List α → List α
  | _, [] => []
  | 0, x :: xs => f x :: xs
  | n + 1, x :: xs => x :: modifyAt f n xs

/-- Append `idx` to the ordering group that contains `pos`. -/
def appendToGroup (pos idx : Nat) (groups : List (List Nat)) : List (List Nat) :=
  groups.map (fun g => if pos ∈ g then g ++ [idx] else g)

/-- Modelled from the spec: `OSMObject::addLayer` is implemented in
osm_object.cpp, which is not among the given sources.  Per the spec it
assigns the next index, appends the definition (with an empty attribute
schema), inserts the name into the name map, and places the index into the
ordering structure according to `writeTo` (its own group when `writeTo`
is empty or unknown, otherwise the group of the named layer). -/
def addLayer (name : String) (minzoom maxzoom simplifyBelow : Nat)
    (simplifyLevel simplifyLength simplifyRat : Int) (writeTo : String)
    (o : OSMObject) : OSMObject × Nat :=
  let idx := o.layers.length
  let l : LayerDef :=
    ⟨name, minzoom, maxzoom, simplifyBelow, simplifyLevel, simplifyLength,
      simplifyRat, []⟩
  let order :=
    if writeTo = "" then o.layerOrder ++ [[idx]]
    else
      match lookupKey o.layerMap writeTo with
      | some pos => appendToGroup pos idx o.layerOrder
      | none => o.layerOrder ++ [[idx]]
  ({ o with layers := o.layers ++ [l], layerMap := mapInsert o.layerMap name idx,
            layerOrder := order }, idx)

/-- Modelled from the spec: `OSMObject::setVectorLayerMetadata` is
implemented in osm_object.cpp, which is not among the given sources.  Per
the spec it records, on the given layer, the attribute key with its
declared type tag, idempotently for repeated keys (map semantics). -/
def setVectorLayerMetadata (layer : Nat) (key : String) (ty : Nat)
    (o : OSMObject) : OSMObject :=
  let upd := fun l : LayerDef =>
    { l with attributeMap := mapInsert l.attributeMap key ty }
  if layer < o.layers.length then
    { o with layers := modifyAt upd layer o.layers }
  else o

/-- A JSON document, the shape of the serialized layer metadata. -/
inductive JSON where
  | str : String → JSON
  | num : Nat → JSON
  | arr : List JSON → JSON
  | obj : List (String × JSON) → JSON

/-- The metadata entry of one layer: exactly the keys id, minzoom,
maxzoom and fields, with fields rendering the attribute schema. -/
def layerToJSON (l : LayerDef) : JSON :=
  JSON.obj [("id", JSON.str l.name), ("minzoom", JSON.num l.minzoom),
    ("maxzoom", JSON.num l.maxzoom),
    ("fields", JSON.obj (l.attributeMap.map (fun p => (p.1, JSON.num p.2))))]

/-- Modelled from the spec: `OSMObject::serialiseLayerJSON` is
implemented in osm_object.cpp, which is not among the given sources.  Per
the spec it produces a JSON object whose top-level `vector_layers` array
holds one `{id, minzoom, maxzoom, fields}` entry per registered layer. -/
def serialiseLayerJSON (o : OSMObject) : JSON :=
  JSON.obj [("vector_layers", JSON.arr (o.layers.map layerToJSON))]

/-- A configuration-time action on the layer registry: register a layer
or record an attribute type on a registered layer. -/
inductive MetaOp where
  | add (name : String) (minzoom maxzoom simplifyBelow : Nat)
      (simplifyLevel simplifyLength simplifyRat : Int) (writeTo : String)
  | record (layer : Nat) (key : String) (ty : Nat)

def applyMetaOp (o : OSMObject) : MetaOp → OSMObject
  | MetaOp.add n mz xz sb sl sn sr w => (addLayer n mz xz sb sl sn sr w o).1
  | MetaOp.record l k t => setVectorLayerMetadata l k t o

def applyMetaOps (o : OSMObject) (ops : List MetaOp) : OSMObject :=
  ops.foldl applyMetaOp o

/-- A run is valid when, counting from `c` already-registered layers,
every `record` targets an already-registered layer index. -/
def validFrom : Nat → List MetaOp → Bool
  | _, [] => true
  | c, MetaOp.add _ _ _ _ _ _ _ _ :: rest => validFrom (c + 1) rest
  | c, MetaOp.record l0 _ _ :: rest => decide (l0 < c) && validFrom c rest

/-- The names passed to `add`, in registration order. -/
def addedNames : List MetaOp → List String
  | [] => []
  | MetaOp.add n _ _ _ _ _ _ _ :: rest => n :: addedNames rest
  | MetaOp.record _ _ _ :: rest => addedNames rest

/-- The type tag of the last `record` for layer `li` and key `k`. -/
def lastRecorded (li : Nat) (k : String) : List MetaOp → Option Nat
  | [] => none
  | MetaOp.add _ _ _ _ _ _ _ _ :: rest => lastRecorded li k rest
  | MetaOp.record l0 k0 t :: rest =>
      match lastRecorded li k rest with
      | some t1 => some t1
      | none => if l0 = li ∧ k0 = k then some t else none

/-- Out-of-range placeholder for `List.getD` over layers. -/
def dfltLayer : LayerDef := ⟨"", 0, 0, 0, 0, 0, 0, []⟩

theorem lookupKey_mapInsert_self (m : List (String × Nat)) (k : String) (v : Nat) :
    lookupKey (mapInsert m k v) k = some v := by
  induction m with
  | nil => simp [mapInsert, lookupKey]
  | cons p rest ih =>
      obtain ⟨k0, v0⟩ := p
      by_cases h : k0 = k
      · subst h
        simp [mapInsert, lookupKey]
      · simp [mapInsert, lookupKey, h, ih]

theorem lookupKey_mapInsert_other (m : List (String × Nat)) (k k1 : String) (v : Nat)
    (hne : k1 ≠ k) : lookupKey (mapInsert m k v) k1 = lookupKey m k1 := by
  induction m with
  | nil => simp [mapInsert, lookupKey, Ne.symm hne]
  | cons p rest ih =>
      obtain ⟨k0, v0⟩ := p
      by_cases h : k0 = k
      · subst h
        have h01 : k0 ≠ k1 := fun hh => hne hh.symm
        simp [mapInsert, lookupKey, h01]
      · simp only [mapInsert, if_neg h, lookupKey]
        by_cases h1 : k0 = k1
        · simp [h1]
        · simp [h1, ih]

theorem mem_keys_mapInsert (m : List (String × Nat)) (k x : String) (v : Nat) :
    x ∈ (mapInsert m k v).map (fun p => p.1) ↔
      x ∈ m.map (fun p => p.1) ∨ x = k := by
  induction m with
  | nil => simp [mapInsert]
  | cons p rest ih =>
      obtain ⟨k0, v0⟩ := p
      by_cases h : k0 = k
      · subst h
        simp [mapInsert]
        tauto
      · simp [mapInsert, h, ih]
        tauto

theorem nodup_keys_mapInsert (m : List (String × Nat)) (k : String) (v : Nat)
    (h : (m.map (fun p => p.1)).Nodup) :
    ((mapInsert m k v).map (fun p => p.1)).Nodup := by
  induction m with
  | nil => simp [mapInsert]
  | cons p rest ih =>
      obtain ⟨k0, v0⟩ := p
      simp only [List.map_cons, List.nodup_cons] at h
      by_cases hk : k0 = k
      · subst hk
        simpa [mapInsert] using h
      · simp only [mapInsert, if_neg hk, List.map_cons, List.nodup_cons]
        refine ⟨?_, ih h.2⟩
        intro hmem
        rw [mem_keys_mapInsert] at hmem
        rcases hmem with hmem | hmem
        · exact h.1 hmem
        · exact hk hmem

theorem modifyAt_length {α : Type} (f : α → α) (i : Nat) (xs : List α) :
    (modifyAt f i xs).length = xs.length := by
  induction xs generalizing i with
  | nil => cases i <;> rfl
  | cons x xs ih =>
      cases i with
      | zero => rfl
      | succ n => simp [modifyAt, ih]

theorem modifyAt_getD_self {α : Type} (f : α → α) (i : Nat) (xs : List α) (d : α)
    (h : i < xs.length) : (modifyAt f i xs).getD i d = f (xs.getD i d) := by
  induction xs generalizing i with
  | nil => simp at h
  | cons x xs ih =>
      cases i with
      | zero => rfl
      | succ n =>
          show (modifyAt f n xs).getD n d = f (xs.getD n d)
          exact ih n (by simpa using h)

theorem modifyAt_getD_other {α : Type} (f : α → α) (i j : Nat) (xs : List α) (d : α)
    (h : j ≠ i) : (modifyAt f i xs).getD j d = xs.getD j d := by
  induction xs generalizing i j with
  | nil => cases i <;> rfl
  | cons x xs ih =>
      cases i with
      | zero =>
          cases j with
          | zero => exact absurd rfl h
          | succ m => rfl
      | succ n =>
          cases j with
          | zero => rfl
          | succ m =>
              show (modifyAt f n xs).getD m d = xs.getD m d
              exact ih n m (by omega)

theorem modifyAt_mem {α : Type} (f : α → α) (i : Nat) (xs : List α) :
    ∀ x ∈ modifyAt f i xs, x ∈ xs ∨ ∃ y ∈ xs, x = f y := by
  induction xs generalizing i with
  | nil =>
      intro x hx
      simp [modifyAt] at hx
  | cons a xs ih =>
      cases i with
      | zero =>
          intro x hx
          rcases List.mem_cons.mp hx with hx | hx
          · exact Or.inr ⟨a, List.mem_cons_self a xs, hx⟩
          · exact Or.inl (List.mem_cons_of_mem a hx)
      | succ n =>
          intro x hx
          rcases List.mem_cons.mp hx with hx | hx
          · exact Or.inl (by simp [hx])
          · rcases ih n x hx with h1 | ⟨y, hy, hxy⟩
            · exact Or.inl (List.mem_cons_of_mem a h1)
            · exact Or.inr ⟨y, List.mem_cons_of_mem a hy, hxy⟩

theorem modifyAt_map_eq {α β : Type} (f : α → α) (g : α → β) (i : Nat) (xs : List α)
    (h : ∀ x, g (f x) = g x) : (modifyAt f i xs).map g = xs.map g := by
  induction xs generalizing i with
  | nil => cases i <;> rfl
  | cons a xs ih =>
      cases i with
      | zero => simp [modifyAt, h]
      | succ n => simp [modifyAt, ih]

theorem applyMetaOps_cons (o : OSMObject) (op : MetaOp) (rest : List MetaOp) :
    applyMetaOps o (op :: rest) = applyMetaOps (applyMetaOp o op) rest := rfl

theorem setVectorLayerMetadata_layers_map_name (l0 : Nat) (k : String) (t : Nat)
    (o : OSMObject) :
    (setVectorLayerMetadata l0 k t o).layers.map (fun l => l.name) =
      o.layers.map (fun l => l.name) := by
  unfold setVectorLayerMetadata
  split
  · exact modifyAt_map_eq _ _ _ _ (fun x => rfl)
  · rfl

theorem setVectorLayerMetadata_layers_length (l0 : Nat) (k : String) (t : Nat)
    (o : OSMObject) :
    (setVectorLayerMetadata l0 k t o).layers.length = o.layers.length := by
  unfold setVectorLayerMetadata
  split
  · exact modifyAt_length _ _ _
  · rfl

theorem applyMetaOps_names (ops : List MetaOp) :
    ∀ o : OSMObject, (applyMetaOps o ops).layers.map (fun l => l.name) =
      o.layers.map (fun l => l.name) ++ addedNames ops := by
  induction ops with
  | nil =>
      intro o
      simp [applyMetaOps, addedNames]
  | cons op rest ih =>
      intro o
      rw [applyMetaOps_cons]
      cases op with
      | add n mz xz sb sl sn sr w =>
          rw [ih]
          show (addLayer n mz xz sb sl sn sr w o).1.layers.map (fun l => l.name) ++
              addedNames rest =
            o.layers.map (fun l => l.name) ++ addedNames (MetaOp.add n mz xz sb sl sn sr w :: rest)
          simp [addLayer, addedNames]
      | record l0 k t =>
          rw [ih]
          show (setVectorLayerMetadata l0 k t o).layers.map (fun l => l.name) ++
              addedNames rest =
            o.layers.map (fun l => l.name) ++ addedNames (MetaOp.record l0 k t :: rest)
          rw [setVectorLayerMetadata_layers_map_name]
          rfl

theorem applyMetaOps_layers_length (ops : List MetaOp) (o : OSMObject) :
    (applyMetaOps o ops).layers.length =
      o.layers.length + (addedNames ops).length := by
  have h := applyMetaOps_names ops o
  have h1 : (applyMetaOps o ops).layers.length =
      ((applyMetaOps o ops).layers.map (fun l => l.name)).length := by simp
  rw [h1, h]
  simp

/-- The registry invariant: every layer's recorded attribute schema has
no duplicate keys. -/
def schemaNodup (o : OSMObject) : Prop :=
  ∀ l ∈ o.layers, (l.attributeMap.map (fun p => p.1)).Nodup

theorem applyMetaOps_schemaNodup (ops : List MetaOp) :
    ∀ o : OSMObject, schemaNodup o → schemaNodup (applyMetaOps o ops) := by
  induction ops with
  | nil => intro o h; exact h
  | cons op rest ih =>
      intro o h
      rw [applyMetaOps_cons]
      apply ih
      cases op with
      | add n mz xz sb sl sn sr w =>
          intro l hl
          simp only [applyMetaOp, addLayer] at hl
          rcases List.mem_append.mp hl with hl | hl
          · exact h l hl
          · rcases List.mem_singleton.mp hl with rfl
            simp
      | record l0 k t =>
          intro l hl
          simp only [applyMetaOp] at hl
          unfold setVectorLayerMetadata at hl
          split at hl
          · rcases modifyAt_mem _ _ _ l hl with h1 | ⟨y, hy, hxy⟩
            · exact h l h1
            · subst hxy
              exact nodup_keys_mapInsert _ _ _ (h y hy)
          · exact h l hl

theorem applyMetaOps_lookup_frame (ops : List MetaOp) :
    ∀ (o : OSMObject) (li : Nat) (k : String), li < o.layers.length →
      lastRecorded li k ops = none →
      lookupKey ((applyMetaOps o ops).layers.getD li dfltLayer).attributeMap k =
        lookupKey ((o.layers.getD li dfltLayer).attributeMap) k := by
  induction ops with
  | nil =>
      intro o li k _ _
      rfl
  | cons op rest ih =>
      intro o li k hli h
      rw [applyMetaOps_cons]
      cases op with
      | add n mz xz sb sl sn sr w =>
          have h' : lastRecorded li k rest = none := h
          have hlayers : (applyMetaOp o (MetaOp.add n mz xz sb sl sn sr w)).layers =
              o.layers ++ [⟨n, mz, xz, sb, sl, sn, sr, []⟩] := rfl
          have hlen : li < (applyMetaOp o (MetaOp.add n mz xz sb sl sn sr w)).layers.length := by
            rw [hlayers]
            simp
            omega
          rw [ih _ li k hlen h', hlayers, List.getD_append _ _ _ _ hli]
      | record l0 k0 t =>
          have hsplit : lastRecorded li k rest = none ∧ ¬(l0 = li ∧ k0 = k) := by
            unfold lastRecorded at h
            cases hr : lastRecorded li k rest with
            | some t1 =>
                rw [hr] at h
                cases h
            | none =>
                rw [hr] at h
                refine ⟨rfl, ?_⟩
                intro hc
                rw [if_pos hc] at h
                cases h
          have hlen : li < (applyMetaOp o (MetaOp.record l0 k0 t)).layers.length := by
            show li < (setVectorLayerMetadata l0 k0 t o).layers.length
            rw [setVectorLayerMetadata_layers_length]
            exact hli
          rw [ih _ li k hlen hsplit.1]
          show lookupKey ((setVectorLayerMetadata l0 k0 t o).layers.getD li dfltLayer).attributeMap k =
            lookupKey ((o.layers.getD li dfltLayer).attributeMap) k
          unfold setVectorLayerMetadata
          split
          · by_cases hl : li = l0
            · subst hl
              have hk : k0 ≠ k := by
                intro hk
                exact hsplit.2 ⟨rfl, hk⟩
              rw [modifyAt_getD_self _ _ _ _ hli]
              exact lookupKey_mapInsert_other _ _ _ _ (fun hkk => hk hkk.symm)
            · rw [modifyAt_getD_other _ _ _ _ _ hl]
          · rfl

theorem applyMetaOps_lookup_lastRecorded (ops : List MetaOp) :
    ∀ (o : OSMObject) (li : Nat) (k : String) (t : Nat),
      validFrom o.layers.length ops = true → lastRecorded li k ops = some t →
      li < (applyMetaOps o ops).layers.length ∧
      lookupKey ((applyMetaOps o ops).layers.getD li dfltLayer).attributeMap k =
        some t := by
  induction ops with
  | nil =>
      intro o li k t _ h
      cases h
  | cons op rest ih =>
      intro o li k t hv h
      rw [applyMetaOps_cons]
      cases op with
      | add n mz xz sb sl sn sr w =>
          have h' : lastRecorded li k rest = some t := h
          have hv' : validFrom (applyMetaOp o (MetaOp.add n mz xz sb sl sn sr w)).layers.length rest = true := by
            have hlayers : (applyMetaOp o (MetaOp.add n mz xz sb sl sn sr w)).layers =
                o.layers ++ [⟨n, mz, xz, sb, sl, sn, sr, []⟩] := rfl
            have : (applyMetaOp o (MetaOp.add n mz xz sb sl sn sr w)).layers.length =
                o.layers.length + 1 := by
              rw [hlayers]
              simp
            rw [this]
            exact hv
          exact ih _ li k t hv' h'
      | record l0 k0 t0 =>
          have hv0 : l0 < o.layers.length ∧ validFrom o.layers.length rest = true := by
            simpa [validFrom] using hv
          have hl0 : l0 < o.layers.length := hv0.1
          have hvr : validFrom o.layers.length rest = true := hv0.2
          have hlen : (applyMetaOp o (MetaOp.record l0 k0 t0)).layers.length =
              o.layers.length := setVectorLayerMetadata_layers_length l0 k0 t0 o
          have hv' : validFrom (applyMetaOp o (MetaOp.record l0 k0 t0)).layers.length rest = true := by
            rw [hlen]
            exact hvr
          cases hr : lastRecorded li k rest with
          | some t1 =>
              have ht : t1 = t := by
                unfold lastRecorded at h
                rw [hr] at h
                cases h
                rfl
              subst ht
              exact ih _ li k t1 hv' hr
          | none =>
              have hcond : l0 = li ∧ k0 = k ∧ t0 = t := by
                unfold lastRecorded at h
                rw [hr] at h
                by_cases hc : l0 = li ∧ k0 = k
                · rw [if_pos hc] at h
                  cases h
                  exact ⟨hc.1, hc.2, rfl⟩
                · rw [if_neg hc] at h
                  cases h
              obtain ⟨hl, hk, ht⟩ := hcond
              subst hl
              subst hk
              subst ht
              have hli' : l0 < (applyMetaOp o (MetaOp.record l0 k0 t0)).layers.length := by
                rw [hlen]
                exact hl0
              constructor
              · have hmono := applyMetaOps_layers_length rest
                  (applyMetaOp o (MetaOp.record l0 k0 t0))
                omega
              · rw [applyMetaOps_lookup_frame rest _ l0 k0 hli' hr]
                show lookupKey ((setVectorLayerMetadata l0 k0 t0 o).layers.getD l0 dfltLayer).attributeMap k0 = some t0
                unfold setVectorLayerMetadata
                rw [if_pos hl0]
                rw [modifyAt_getD_self _ _ _ _ hl0]
                exact lookupKey_mapInsert_self _ _ _

/-- C7: for every valid configuration run, the serialized metadata is a
JSON object whose top-level `vector_layers` array lists the registered
layers in registration order; each entry carries exactly the keys id,
minzoom, maxzoom and fields; and each entry's fields object is its
layer's recorded schema — duplicate-free keys, with every recorded
attribute key mapped to its (last) recorded type tag. -/
theorem serialiseLayerJSON_spec (ops : List MetaOp)
    (hvalid : validFrom 0 ops = true) :
    serialiseLayerJSON (applyMetaOps initOSM ops) =
      JSON.obj [("vector_layers",
        JSON.arr ((applyMetaOps initOSM ops).layers.map layerToJSON))] ∧
    (applyMetaOps initOSM ops).layers.map (fun l => l.name) = addedNames ops ∧
    (∀ l ∈ (applyMetaOps initOSM ops).layers,
      layerToJSON l =
        JSON.obj [("id", JSON.str l.name), ("minzoom", JSON.num l.minzoom),
          ("maxzoom", JSON.num l.maxzoom),
          ("fields", JSON.obj (l.attributeMap.map (fun p => (p.1, JSON.num p.2))))] ∧
      (l.attributeMap.map (fun p => p.1)).Nodup) ∧
    (∀ li k t, lastRecorded li k ops = some t →
      li < (applyMetaOps initOSM ops).layers.length ∧
      lookupKey (((applyMetaOps initOSM ops).layers.getD li dfltLayer).attributeMap) k =
        some t) := by
  refine ⟨rfl, ?_, ?_, ?_⟩
  · have h := applyMetaOps_names ops initOSM
    simpa [initOSM] using h
  · intro l hl
    refine ⟨rfl, ?_⟩
    have hn := applyMetaOps_schemaNodup ops initOSM
      (by intro x hx; simp [initOSM] at hx)
    exact hn l hl
  · intro li k t h
    exact applyMetaOps_lookup_lastRecorded ops initOSM li k t hvalid h

/-- A sample configuration run: two layers, several recorded attribute
types, including an overwrite of layer 0's lanes type. -/
def sampleOps : List MetaOp :=
  [MetaOp.add ("roads") 4 14 0 0 0 0 (""),
   MetaOp.add ("water") 0 14 0 0 0 0 (""),
   MetaOp.record 0 ("roadname") 0,
   MetaOp.record 0 ("lanes") 1,
   MetaOp.record 1 ("depth") 1,
   MetaOp.record 0 ("lanes") 2]

/-- Witness for C7: on `sampleOps` the serialized layers appear in
registration order and the lanes attribute of layer 0 carries its last
recorded type tag. -/
theorem serialiseLayerJSON_spec_witness :
    (applyMetaOps initOSM sampleOps).layers.map (fun l => l.name) =
      addedNames sampleOps ∧
    lookupKey (((applyMetaOps initOSM sampleOps).layers.getD 0 dfltLayer).attributeMap)
      ("lanes") = some 2 := by
  have h := serialiseLayerJSON_spec sampleOps rfl
  exact ⟨h.2.1, (h.2.2.2 0 ("lanes") 2 rfl).2⟩

end Tilemaker
